import Mathlib

/-!
Verification of the instruction encoding & validation layer of the
`collection` Solana program (`src/program/src/instruction.rs`).

Modelling conventions:
* Rust `String` values are UTF-8 byte sequences and `String::len()` is the
  byte length, so strings are modelled as lists of bytes (`Bytes`); borsh's
  UTF-8 validity re-check on deserialization is not modelled, since every
  byte list that arises from encoding a string is the original string's
  bytes.
* Machine integers appear only as borsh's `len() as u32` cast, modelled by
  an explicit `% 2 ^ 32`.
* Serialization (`BorshSerialize::try_to_vec`) writes into a `Vec<u8>`,
  whose `Write` implementation is infallible, so `encode` is a total
  function on commands.
-/

namespace Collection

/-- One byte, the unit of the borsh wire format. -/
abbrev Byte := Fin 256

/-- A byte buffer. -/
abbrev Bytes := List Byte

/-- Builds the byte `n % 256`. -/
def Byte.ofNat (n : Nat) : Byte := ⟨n % 256, by omega⟩

/-- Modelled from the spec: a resource identifier ("fixed-width public
identifier, opaque to this layer"); `solana_program::pubkey::Pubkey` is an
external dependency, not part of this repository's sources. Only identity
matters to this layer, so it is an opaque tagged value. -/
structure Pubkey where
  id : Nat
deriving DecidableEq

/-- Modelled from the spec: the rent "well-known reference"
(`sysvar::rent::id()`), an opaque distinguished identifier supplied by the
runtime crate. -/
def rentSysvarId : Pubkey := ⟨1000⟩

/-- Modelled from the spec: the system-program "well-known reference"
(`system_program::id()`). -/
def systemProgramId : Pubkey := ⟨1001⟩

/-- Modelled from the spec: `AccountType` is "an opaque ordinal, owned by an
external collaborator, selecting which persisted record kind a CloseAccount
command targets"; its defining file (`state.rs`) is not among the staged
sources, and its wire form is a 1-byte unsigned ordinal. -/
structure AccountType where
  ord : Byte
deriving DecidableEq

/-- `solana_program::instruction::AccountMeta`. -/
structure AccountMeta where
  pubkey : Pubkey
  is_signer : Bool
  is_writable : Bool
deriving DecidableEq

/-- `AccountMeta::new`: a writable reference. -/
def AccountMeta.new (pubkey : Pubkey) (is_signer : Bool) : AccountMeta :=
  { pubkey := pubkey, is_signer := is_signer, is_writable := true }

/-- `AccountMeta::new_readonly`: a read-only reference. -/
def AccountMeta.new_readonly (pubkey : Pubkey) (is_signer : Bool) : AccountMeta :=
  { pubkey := pubkey, is_signer := is_signer, is_writable := false }

/-- `solana_program::instruction::Instruction`, the builder output
(the spec's Request). -/
structure Instruction where
  program_id : Pubkey
  accounts : List AccountMeta
  data : Bytes
deriving DecidableEq

/-- `CreateCollectionAccountArgs` (instruction.rs lines 13-24). -/
structure CreateCollectionAccountArgs where
  title : Bytes
  symbol : Bytes
  description : Bytes
  icon_image : Bytes
  header_image : Option Bytes
  short_description : Option Bytes
  banner : Option Bytes
  tags : Option (List Bytes)
deriving DecidableEq

namespace CreateCollectionAccountArgs

def MAX_TITLE_LENGTH : Nat := 32

def MAX_SYMBOL_LENGTH : Nat := 10

def MAX_URI_LENGTH : Nat := 200

def MAX_DESCRIPTION_LENGTH : Nat := 800

def MAX_SHORT_DESCRIPTION_LENGTH : Nat := 800

def MAX_TAG_LENGTH : Nat := 20

def MAX_TAGS_ARRAY_LENGTH : Nat := 6

/-- `CreateCollectionAccountArgs::check_tags` (instruction.rs lines 226-239):
absent tags pass; a list longer than `MAX_TAGS_ARRAY_LENGTH` fails; a tag of
length `>= MAX_TAG_LENGTH` fails. -/
def check_tags (a : CreateCollectionAccountArgs) : Bool :=
  match a.tags with
  | none => true
  | some ts =>
    if ts.length > MAX_TAGS_ARRAY_LENGTH then false
    else ts.all fun tag => !(decide (tag.length ≥ MAX_TAG_LENGTH))

/-- `CreateCollectionAccountArgs::is_valid` (instruction.rs lines 215-224):
a conjunction of length bounds, with `is_none() || unwrap().len() <= MAX`
for each optional field, ending in `check_tags`. -/
def is_valid (a : CreateCollectionAccountArgs) : Bool :=
  decide (a.title.length ≤ MAX_TITLE_LENGTH)
  && decide (a.symbol.length ≤ MAX_SYMBOL_LENGTH)
  && decide (a.description.length ≤ MAX_DESCRIPTION_LENGTH)
  && decide (a.icon_image.length ≤ MAX_URI_LENGTH)
  && (match a.header_image with
      | none => true
      | some s => decide (s.length ≤ MAX_URI_LENGTH))
  && (match a.short_description with
      | none => true
      | some s => decide (s.length ≤ MAX_SHORT_DESCRIPTION_LENGTH))
  && (match a.banner with
      | none => true
      | some s => decide (s.length ≤ MAX_URI_LENGTH))
  && a.check_tags

end CreateCollectionAccountArgs

/-- `CollectionInstruction` (instruction.rs lines 26-94): the command union,
variants in declaration order (their borsh tags are the 0-based positions). -/
inductive CollectionInstruction where
  | CreateCollectionAccount (args : CreateCollectionAccountArgs)
  | IncludeToken
  | LightUpStarsOnce
  | LightUpStarsHundred
  | LightUpStarsThousand
  | CloseAccount (account_type : AccountType)
  | Withdraw
deriving DecidableEq

/-- Little-endian bytes of `n` cast to `u32`: borsh writes
`(len as u32).to_le_bytes()` as the length prefix. -/
def u32le (n : Nat) : Bytes :=
  [Byte.ofNat n, Byte.ofNat (n / 2 ^ 8), Byte.ofNat (n / 2 ^ 16), Byte.ofNat (n / 2 ^ 24)]

/-- Borsh encoding of a string: `u32` byte length prefix, then the bytes. -/
def encodeStr (s : Bytes) : Bytes := u32le s.length ++ s

/-- Borsh encoding of an `Option`: presence flag `0`/`1`, then the value. -/
def encodeOpt (f : α → Bytes) : Option α → Bytes
  | none => [Byte.ofNat 0]
  | some x => Byte.ofNat 1 :: f x

/-- Borsh encoding of a `Vec`: `u32` element count, then each element. -/
def encodeVec (f : α → Bytes) (v : List α) : Bytes :=
  u32le v.length ++ (v.map f).flatten

/-- Borsh encoding of `CreateCollectionAccountArgs`, fields in declaration
order. -/
def encodeArgs (a : CreateCollectionAccountArgs) : Bytes :=
  encodeStr a.title ++ encodeStr a.symbol ++ encodeStr a.description
  ++ encodeStr a.icon_image
  ++ encodeOpt encodeStr a.header_image
  ++ encodeOpt encodeStr a.short_description
  ++ encodeOpt encodeStr a.banner
  ++ encodeOpt (encodeVec encodeStr) a.tags

/-- Borsh encoding of `CollectionInstruction` (derived `BorshSerialize`):
the variant's 0-based tag byte, then its payload. This is
`try_to_vec().unwrap()` in the builders; writing into a `Vec<u8>` cannot
fail, so the function is total. -/
def encode : CollectionInstruction → Bytes
  | .CreateCollectionAccount a => Byte.ofNat 0 :: encodeArgs a
  | .IncludeToken => [Byte.ofNat 1]
  | .LightUpStarsOnce => [Byte.ofNat 2]
  | .LightUpStarsHundred => [Byte.ofNat 3]
  | .LightUpStarsThousand => [Byte.ofNat 4]
  | .CloseAccount t => [Byte.ofNat 5, t.ord]
  | .Withdraw => [Byte.ofNat 6]

/-- `create_collection_account` (instruction.rs lines 97-113). -/
def create_collection_account (program_id collection_account from_account : Pubkey)
    (args : CreateCollectionAccountArgs) : Instruction :=
  { program_id := program_id
    accounts := [
      AccountMeta.new collection_account true,
      AccountMeta.new_readonly from_account true,
      AccountMeta.new_readonly rentSysvarId false,
      AccountMeta.new_readonly systemProgramId false]
    data := encode (.CreateCollectionAccount args) }

/-- `include_token` (instruction.rs lines 115-134). -/
def include_token (program_id collection_account mint_account payer_account
    index_account : Pubkey) : Instruction :=
  { program_id := program_id
    accounts := [
      AccountMeta.new collection_account true,
      AccountMeta.new mint_account false,
      AccountMeta.new payer_account true,
      AccountMeta.new index_account false,
      AccountMeta.new_readonly rentSysvarId false,
      AccountMeta.new_readonly systemProgramId false]
    data := encode .IncludeToken }

/-- `light_up_stars_once` (instruction.rs lines 136-147). -/
def light_up_stars_once (program_id collection_account : Pubkey) : Instruction :=
  { program_id := program_id
    accounts := [AccountMeta.new collection_account true]
    data := encode .LightUpStarsOnce }

/-- `light_up_stars_hundred` (instruction.rs lines 149-165). -/
def light_up_stars_hundred (program_id collection_account source_account
    destination_account : Pubkey) : Instruction :=
  { program_id := program_id
    accounts := [
      AccountMeta.new collection_account false,
      AccountMeta.new source_account true,
      AccountMeta.new destination_account false,
      AccountMeta.new_readonly systemProgramId false]
    data := encode .LightUpStarsHundred }

/-- `close_account` (instruction.rs lines 167-183). -/
def close_account (program_id state_account recipient_account authority_account : Pubkey)
    (account_type : AccountType) : Instruction :=
  { program_id := program_id
    accounts := [
      AccountMeta.new state_account false,
      AccountMeta.new recipient_account false,
      AccountMeta.new authority_account true]
    data := encode (.CloseAccount account_type) }

/-- `withdraw` (instruction.rs lines 185-198). -/
def withdraw (program_id treasury_account recipient_account : Pubkey) : Instruction :=
  { program_id := program_id
    accounts := [
      AccountMeta.new treasury_account false,
      AccountMeta.new recipient_account false]
    data := encode .Withdraw }

/-- Modelled from the spec: the one failure kind of `decode`,
"`MalformedInstruction` — raised by decode when the byte stream's tag,
length prefixes, or element counts are inconsistent" (the error enum lives
outside the staged sources; borsh's own deserialize errors are all mapped
to it). -/
inductive DecodeError where
  | malformedInstruction
deriving DecidableEq

/-- Views an `Except` as a sum, for deciding equalities of decode results. -/
def exceptToSum : Except ε α → ε ⊕ α
  | .error e => .inl e
  | .ok a => .inr a

instance [DecidableEq ε] [DecidableEq α] : DecidableEq (Except ε α) := fun a b =>
  decidable_of_iff (exceptToSum a = exceptToSum b)
    (by cases a <;> cases b <;> simp [exceptToSum])

/-- A borsh reader: consumes a prefix of the buffer and returns the value
with the unread remainder, or fails. -/
abbrev Rd (α : Type) := Bytes → Except DecodeError (α × Bytes)

/-- `u8::deserialize`: one byte. -/
def readU8 : Rd Byte := fun s =>
  match s with
  | [] => .error .malformedInstruction
  | b :: r => .ok (b, r)

/-- Reads exactly `n` bytes, failing when fewer remain (borsh's check that a
declared length does not exceed the remaining buffer). -/
def readChunk (n : Nat) : Rd Bytes := fun s =>
  if n ≤ s.length then .ok (s.take n, s.drop n) else .error .malformedInstruction

/-- `u32::deserialize`: four little-endian bytes. -/
def readU32 : Rd Nat := fun s =>
  match s with
  | b0 :: b1 :: b2 :: b3 :: r =>
    .ok (b0.val + 2 ^ 8 * b1.val + 2 ^ 16 * b2.val + 2 ^ 24 * b3.val, r)
  | _ => .error .malformedInstruction

/-- `String::deserialize`: `u32` byte length, then that many bytes.
(The UTF-8 validity re-check is not modelled; strings are byte lists.) -/
def readStr : Rd Bytes := fun s =>
  match readU32 s with
  | .ok (n, r) => readChunk n r
  | .error e => .error e

/-- `Option::<T>::deserialize`: presence flag `0` or `1`; any other flag
byte is an error. -/
def readOpt (p : Rd α) : Rd (Option α) := fun s =>
  match readU8 s with
  | .ok (flag, r) =>
    if flag.val = 0 then .ok (none, r)
    else if flag.val = 1 then
      match p r with
      | .ok (x, r') => .ok (some x, r')
      | .error e => .error e
    else .error .malformedInstruction
  | .error e => .error e

/-- Reads `n` consecutive elements. -/
def readListN (p : Rd α) : Nat → Rd (List α)
  | 0 => fun s => .ok ([], s)
  | n + 1 => fun s =>
    match p s with
    | .ok (x, r) =>
      match readListN p n r with
      | .ok (xs, r') => .ok (x :: xs, r')
      | .error e => .error e
    | .error e => .error e

/-- `Vec::<T>::deserialize`: `u32` element count, then the elements. -/
def readVec (p : Rd α) : Rd (List α) := fun s =>
  match readU32 s with
  | .ok (n, r) => readListN p n r
  | .error e => .error e

/-- Derived `BorshDeserialize` for `CreateCollectionAccountArgs`: the eight
fields in declaration order. -/
def readArgs : Rd CreateCollectionAccountArgs := fun s =>
  match readStr s with
  | .error e => .error e
  | .ok (title, s) =>
  match readStr s with
  | .error e => .error e
  | .ok (symbol, s) =>
  match readStr s with
  | .error e => .error e
  | .ok (description, s) =>
  match readStr s with
  | .error e => .error e
  | .ok (icon_image, s) =>
  match readOpt readStr s with
  | .error e => .error e
  | .ok (header_image, s) =>
  match readOpt readStr s with
  | .error e => .error e
  | .ok (short_description, s) =>
  match readOpt readStr s with
  | .error e => .error e
  | .ok (banner, s) =>
  match readOpt (readVec readStr) s with
  | .error e => .error e
  | .ok (tags, s) =>
    .ok ({ title := title, symbol := symbol, description := description,
           icon_image := icon_image, header_image := header_image,
           short_description := short_description, banner := banner,
           tags := tags }, s)

/-- `AccountType::deserialize`: its 1-byte ordinal (spec: "this layer only
threads the byte through"). -/
def readAccountType : Rd AccountType := fun s =>
  match readU8 s with
  | .ok (b, r) => .ok (⟨b⟩, r)
  | .error e => .error e

/-- Derived `BorshDeserialize` for `CollectionInstruction`: the tag byte
selects the variant, tags `0`-`6` in declaration order; any other tag is an
error. -/
def readInstr : Rd CollectionInstruction := fun s =>
  match readU8 s with
  | .error e => .error e
  | .ok (tag, r) =>
    if tag.val = 0 then
      match readArgs r with
      | .ok (a, r') => .ok (.CreateCollectionAccount a, r')
      | .error e => .error e
    else if tag.val = 1 then .ok (.IncludeToken, r)
    else if tag.val = 2 then .ok (.LightUpStarsOnce, r)
    else if tag.val = 3 then .ok (.LightUpStarsHundred, r)
    else if tag.val = 4 then .ok (.LightUpStarsThousand, r)
    else if tag.val = 5 then
      match readAccountType r with
      | .ok (t, r') => .ok (.CloseAccount t, r')
      | .error e => .error e
    else if tag.val = 6 then .ok (.Withdraw, r)
    else .error .malformedInstruction

/-- `try_from_slice` for `CollectionInstruction`: deserialize and insist the
whole buffer was consumed; any leftover byte is an error. -/
def decode (s : Bytes) : Except DecodeError CollectionInstruction :=
  match readInstr s with
  | .ok (c, []) => .ok c
  | .ok (_, _ :: _) => .error .malformedInstruction
  | .error e => .error e

/-- Bounds under which borsh's `len as u32` length-prefix cast is lossless
for every string field of the payload. -/
def wfArgs (a : CreateCollectionAccountArgs) : Bool :=
  decide (a.title.length < 2 ^ 32)
  && decide (a.symbol.length < 2 ^ 32)
  && decide (a.description.length < 2 ^ 32)
  && decide (a.icon_image.length < 2 ^ 32)
  && (match a.header_image with
      | none => true
      | some s => decide (s.length < 2 ^ 32))
  && (match a.short_description with
      | none => true
      | some s => decide (s.length < 2 ^ 32))
  && (match a.banner with
      | none => true
      | some s => decide (s.length < 2 ^ 32))
  && (match a.tags with
      | none => true
      | some ts =>
        decide (ts.length < 2 ^ 32) && ts.all fun t => decide (t.length < 2 ^ 32))

/-- Bounds under which every `len as u32` cast performed while encoding the
command is lossless. -/
def wf : CollectionInstruction → Bool
  | .CreateCollectionAccount a => wfArgs a
  | _ => true

/-- The access mode of a reference, as the spec tables write it:
(is-writable, must-sign). -/
def accessFlags (m : AccountMeta) : Bool × Bool := (m.is_writable, m.is_signer)

/-- The zero byte. -/
def zByte : Byte := Byte.ofNat 0

/-- A string of `n` ASCII bytes (letter `x`). -/
def strN (n : Nat) : Bytes := List.replicate n (Byte.ofNat 120)

/-- The payload whose required strings are all empty and whose optional
fields are all absent. -/
def emptyArgs : CreateCollectionAccountArgs :=
  { title := [], symbol := [], description := [], icon_image := [],
    header_image := none, short_description := none, banner := none, tags := none }

/-- A payload with a title of length 40, violating the §3 title bound. -/
def invalidTitleArgs : CreateCollectionAccountArgs :=
  { emptyArgs with title := strN 40 }

/-- A payload whose title is `2 ^ 32` zero bytes long: borsh's `len as u32`
length-prefix cast wraps to `0` on it, so its encoding does not decode back
to it. -/
def hugeArgs : CreateCollectionAccountArgs :=
  { title := List.replicate (2 ^ 32) zByte, symbol := [], description := [],
    icon_image := [], header_image := none, short_description := none,
    banner := none, tags := none }

/-- The command carrying `hugeArgs`. -/
def hugeCmd : CollectionInstruction := .CreateCollectionAccount hugeArgs

/-- A small well-formed command used to instantiate the round-trip theorem:
title "Cats", symbol "CAT", icon "x", one tag "a". -/
def sampleCmd : CollectionInstruction :=
  .CreateCollectionAccount
    { title := [Byte.ofNat 67, Byte.ofNat 97, Byte.ofNat 116, Byte.ofNat 115],
      symbol := [Byte.ofNat 67, Byte.ofNat 65, Byte.ofNat 84],
      description := [], icon_image := [Byte.ofNat 120],
      header_image := none, short_description := some [Byte.ofNat 115],
      banner := none, tags := some [[Byte.ofNat 97]] }

theorem byte_ofNat_val (n : Nat) : (Byte.ofNat n).val = n % 256 := rfl

theorem readChunk_exact (s r : Bytes) : readChunk s.length (s ++ r) = .ok (s, r) := by
  unfold readChunk
  rw [if_pos (by rw [List.length_append]; omega)]
  rw [List.take_left, List.drop_left]

theorem readU32_u32le (n : Nat) (r : Bytes) :
    readU32 (u32le n ++ r) = .ok (n % 2 ^ 32, r) := by
  have h : (Byte.ofNat n).val + 2 ^ 8 * (Byte.ofNat (n / 2 ^ 8)).val
      + 2 ^ 16 * (Byte.ofNat (n / 2 ^ 16)).val + 2 ^ 24 * (Byte.ofNat (n / 2 ^ 24)).val
      = n % 2 ^ 32 := by
    simp only [byte_ofNat_val]
    omega
  show Except.ok ((Byte.ofNat n).val + 2 ^ 8 * (Byte.ofNat (n / 2 ^ 8)).val
      + 2 ^ 16 * (Byte.ofNat (n / 2 ^ 16)).val + 2 ^ 24 * (Byte.ofNat (n / 2 ^ 24)).val, r)
      = Except.ok (n % 2 ^ 32, r)
  rw [h]

theorem readStr_encodeStr (s : Bytes) (h : s.length < 2 ^ 32) (r : Bytes) :
    readStr (encodeStr s ++ r) = .ok (s, r) := by
  unfold readStr encodeStr
  rw [List.append_assoc, readU32_u32le, Nat.mod_eq_of_lt h]
  exact readChunk_exact s r

theorem readOpt_encodeOpt (p : Rd α) (f : α → Bytes) (o : Option α)
    (hp : ∀ x, o = some x → ∀ r, p (f x ++ r) = .ok (x, r)) (r : Bytes) :
    readOpt p (encodeOpt f o ++ r) = .ok (o, r) := by
  cases o with
  | none => rfl
  | some x =>
    show readOpt p (Byte.ofNat 1 :: (f x ++ r)) = .ok (some x, r)
    have h1 : readU8 (Byte.ofNat 1 :: (f x ++ r)) = .ok (Byte.ofNat 1, f x ++ r) := rfl
    unfold readOpt
    rw [h1]
    dsimp only
    rw [if_neg (by decide), if_pos (by decide), hp x rfl r]

theorem readListN_encode (p : Rd α) (f : α → Bytes) (v : List α)
    (hp : ∀ x ∈ v, ∀ r, p (f x ++ r) = .ok (x, r)) (r : Bytes) :
    readListN p v.length ((v.map f).flatten ++ r) = .ok (v, r) := by
  induction v with
  | nil => rfl
  | cons x xs ih =>
    show readListN p (xs.length + 1) ((f x ++ (xs.map f).flatten) ++ r) = _
    unfold readListN
    rw [List.append_assoc, hp x (by simp) ((xs.map f).flatten ++ r)]
    dsimp only
    rw [ih fun y hy => hp y (by simp [hy])]

theorem readVec_encodeVec (p : Rd α) (f : α → Bytes) (v : List α)
    (hv : v.length < 2 ^ 32) (hp : ∀ x ∈ v, ∀ r, p (f x ++ r) = .ok (x, r)) (r : Bytes) :
    readVec p (encodeVec f v ++ r) = .ok (v, r) := by
  unfold readVec encodeVec
  rw [List.append_assoc, readU32_u32le, Nat.mod_eq_of_lt hv]
  exact readListN_encode p f v hp r

theorem readArgs_encodeArgs (a : CreateCollectionAccountArgs) (h : wfArgs a = true)
    (r : Bytes) : readArgs (encodeArgs a ++ r) = .ok (a, r) := by
  unfold wfArgs at h
  simp only [Bool.and_eq_true, decide_eq_true_eq] at h
  obtain ⟨⟨⟨⟨⟨⟨⟨h1, h2⟩, h3⟩, h4⟩, h5⟩, h6⟩, h7⟩, h8⟩ := h
  have hp5 : ∀ x, a.header_image = some x → ∀ r', readStr (encodeStr x ++ r') = .ok (x, r') := by
    intro x hx r'
    apply readStr_encodeStr
    rw [hx] at h5
    simpa using h5
  have hp6 : ∀ x, a.short_description = some x → ∀ r', readStr (encodeStr x ++ r') = .ok (x, r') := by
    intro x hx r'
    apply readStr_encodeStr
    rw [hx] at h6
    simpa using h6
  have hp7 : ∀ x, a.banner = some x → ∀ r', readStr (encodeStr x ++ r') = .ok (x, r') := by
    intro x hx r'
    apply readStr_encodeStr
    rw [hx] at h7
    simpa using h7
  have hp8 : ∀ ts, a.tags = some ts → ∀ r',
      readVec readStr (encodeVec encodeStr ts ++ r') = .ok (ts, r') := by
    intro ts hts r'
    rw [hts] at h8
    simp only [Bool.and_eq_true, decide_eq_true_eq, List.all_eq_true] at h8
    exact readVec_encodeVec readStr encodeStr ts h8.1
      (fun x hx r'' => readStr_encodeStr x (h8.2 x hx) r'') r'
  unfold readArgs encodeArgs
  simp only [List.append_assoc]
  rw [readStr_encodeStr a.title h1]
  dsimp only
  rw [readStr_encodeStr a.symbol h2]
  dsimp only
  rw [readStr_encodeStr a.description h3]
  dsimp only
  rw [readStr_encodeStr a.icon_image h4]
  dsimp only
  rw [readOpt_encodeOpt readStr encodeStr a.header_image hp5]
  dsimp only
  rw [readOpt_encodeOpt readStr encodeStr a.short_description hp6]
  dsimp only
  rw [readOpt_encodeOpt readStr encodeStr a.banner hp7]
  dsimp only
  rw [readOpt_encodeOpt (readVec readStr) (encodeVec encodeStr) a.tags hp8]

theorem readInstr_encode (c : CollectionInstruction) (h : wf c = true) (r : Bytes) :
    readInstr (encode c ++ r) = .ok (c, r) := by
  cases c with
  | CreateCollectionAccount a =>
    show readInstr (Byte.ofNat 0 :: (encodeArgs a ++ r)) = _
    have h1 : readU8 (Byte.ofNat 0 :: (encodeArgs a ++ r))
        = .ok (Byte.ofNat 0, encodeArgs a ++ r) := rfl
    unfold readInstr
    rw [h1]
    dsimp only
    rw [if_pos (by decide), readArgs_encodeArgs a h r]
  | IncludeToken => rfl
  | LightUpStarsOnce => rfl
  | LightUpStarsHundred => rfl
  | LightUpStarsThousand => rfl
  | CloseAccount t => rfl
  | Withdraw => rfl

theorem readU8_extend {s : Bytes} {x : Byte} {r : Bytes} (t : Bytes)
    (h : readU8 s = .ok (x, r)) : readU8 (s ++ t) = .ok (x, r ++ t) := by
  cases s with
  | nil => exact Except.noConfusion h
  | cons b s' =>
    simp only [readU8, Except.ok.injEq, Prod.mk.injEq] at h
    obtain ⟨rfl, rfl⟩ := h
    rfl

theorem readChunk_extend {n : Nat} {s c r : Bytes} (t : Bytes)
    (h : readChunk n s = .ok (c, r)) : readChunk n (s ++ t) = .ok (c, r ++ t) := by
  unfold readChunk at h ⊢
  by_cases hn : n ≤ s.length
  · rw [if_pos hn] at h
    rw [if_pos (by rw [List.length_append]; omega)]
    simp only [Except.ok.injEq, Prod.mk.injEq] at h
    obtain ⟨rfl, rfl⟩ := h
    rw [List.take_append_of_le_length hn, List.drop_append_of_le_length hn]
  · rw [if_neg hn] at h
    exact Except.noConfusion h

theorem readU32_extend {s : Bytes} {n : Nat} {r : Bytes} (t : Bytes)
    (h : readU32 s = .ok (n, r)) : readU32 (s ++ t) = .ok (n, r ++ t) := by
  cases s with
  | nil => exact Except.noConfusion h
  | cons b0 s1 =>
  cases s1 with
  | nil => exact Except.noConfusion h
  | cons b1 s2 =>
  cases s2 with
  | nil => exact Except.noConfusion h
  | cons b2 s3 =>
  cases s3 with
  | nil => exact Except.noConfusion h
  | cons b3 s' =>
  have e1 : readU32 (b0 :: b1 :: b2 :: b3 :: s')
      = .ok (b0.val + 2 ^ 8 * b1.val + 2 ^ 16 * b2.val + 2 ^ 24 * b3.val, s') := rfl
  rw [e1] at h
  simp only [Except.ok.injEq, Prod.mk.injEq] at h
  obtain ⟨rfl, rfl⟩ := h
  rfl

theorem readStr_extend {s v r : Bytes} (t : Bytes)
    (h : readStr s = .ok (v, r)) : readStr (s ++ t) = .ok (v, r ++ t) := by
  unfold readStr at h ⊢
  cases hu : readU32 s with
  | error e =>
    rw [hu] at h
    exact Except.noConfusion h
  | ok q =>
    obtain ⟨n, r1⟩ := q
    rw [hu] at h
    rw [readU32_extend t hu]
    dsimp only at h ⊢
    exact readChunk_extend t h

theorem readOpt_extend {p : Rd α}
    (hp : ∀ {s : Bytes} {x : α} {r : Bytes} (t : Bytes),
      p s = .ok (x, r) → p (s ++ t) = .ok (x, r ++ t))
    {s : Bytes} {o : Option α} {r : Bytes} (t : Bytes)
    (h : readOpt p s = .ok (o, r)) : readOpt p (s ++ t) = .ok (o, r ++ t) := by
  unfold readOpt at h ⊢
  cases hu : readU8 s with
  | error e =>
    rw [hu] at h
    exact Except.noConfusion h
  | ok q =>
    obtain ⟨flag, r1⟩ := q
    rw [hu] at h
    rw [readU8_extend t hu]
    dsimp only at h ⊢
    by_cases h0 : flag.val = 0
    · rw [if_pos h0] at h ⊢
      simp only [Except.ok.injEq, Prod.mk.injEq] at h
      obtain ⟨rfl, rfl⟩ := h
      rfl
    · rw [if_neg h0] at h ⊢
      by_cases h1 : flag.val = 1
      · rw [if_pos h1] at h ⊢
        cases hv : p r1 with
        | error e =>
          rw [hv] at h
          exact Except.noConfusion h
        | ok q2 =>
          obtain ⟨x, r2⟩ := q2
          rw [hv] at h
          rw [hp t hv]
          dsimp only at h ⊢
          simp only [Except.ok.injEq, Prod.mk.injEq] at h
          obtain ⟨rfl, rfl⟩ := h
          rfl
      · rw [if_neg h1] at h
        exact Except.noConfusion h

theorem readListN_extend {p : Rd α}
    (hp : ∀ {s : Bytes} {x : α} {r : Bytes} (t : Bytes),
      p s = .ok (x, r) → p (s ++ t) = .ok (x, r ++ t))
    (n : Nat) {s : Bytes} {v : List α} {r : Bytes} (t : Bytes)
    (h : readListN p n s = .ok (v, r)) : readListN p n (s ++ t) = .ok (v, r ++ t) := by
  induction n generalizing s v r with
  | zero =>
    unfold readListN at h ⊢
    simp only [Except.ok.injEq, Prod.mk.injEq] at h
    obtain ⟨rfl, rfl⟩ := h
    rfl
  | succ m ih =>
    unfold readListN at h ⊢
    cases hx : p s with
    | error e =>
      rw [hx] at h
      exact Except.noConfusion h
    | ok q =>
      obtain ⟨x, r1⟩ := q
      rw [hx] at h
      rw [hp t hx]
      dsimp only at h ⊢
      cases hl : readListN p m r1 with
      | error e =>
        rw [hl] at h
        exact Except.noConfusion h
      | ok q2 =>
        obtain ⟨xs, r2⟩ := q2
        rw [hl] at h
        rw [ih hl]
        dsimp only at h ⊢
        simp only [Except.ok.injEq, Prod.mk.injEq] at h
        obtain ⟨rfl, rfl⟩ := h
        rfl

theorem readVec_extend {p : Rd α}
    (hp : ∀ {s : Bytes} {x : α} {r : Bytes} (t : Bytes),
      p s = .ok (x, r) → p (s ++ t) = .ok (x, r ++ t))
    {s : Bytes} {v : List α} {r : Bytes} (t : Bytes)
    (h : readVec p s = .ok (v, r)) : readVec p (s ++ t) = .ok (v, r ++ t) := by
  unfold readVec at h ⊢
  cases hu : readU32 s with
  | error e =>
    rw [hu] at h
    exact Except.noConfusion h
  | ok q =>
    obtain ⟨n, r1⟩ := q
    rw [hu] at h
    rw [readU32_extend t hu]
    dsimp only at h ⊢
    exact readListN_extend hp n t h

theorem readAccountType_extend {s : Bytes} {x : AccountType} {r : Bytes} (t : Bytes)
    (h : readAccountType s = .ok (x, r)) : readAccountType (s ++ t) = .ok (x, r ++ t) := by
  unfold readAccountType at h ⊢
  cases hu : readU8 s with
  | error e =>
    rw [hu] at h
    exact Except.noConfusion h
  | ok q =>
    obtain ⟨b, r1⟩ := q
    rw [hu] at h
    rw [readU8_extend t hu]
    dsimp only at h ⊢
    simp only [Except.ok.injEq, Prod.mk.injEq] at h
    obtain ⟨rfl, rfl⟩ := h
    rfl

theorem readArgs_extend {s : Bytes} {a : CreateCollectionAccountArgs} {r : Bytes} (t : Bytes)
    (h : readArgs s = .ok (a, r)) : readArgs (s ++ t) = .ok (a, r ++ t) := by
  unfold readArgs at h ⊢
  cases h1 : readStr s with
  | error e =>
    rw [h1] at h
    exact Except.noConfusion h
  | ok q1 =>
    obtain ⟨title, s1⟩ := q1
    rw [h1] at h
    rw [readStr_extend t h1]
    dsimp only at h ⊢
    cases h2 : readStr s1 with
    | error e =>
      rw [h2] at h
      exact Except.noConfusion h
    | ok q2 =>
      obtain ⟨symbol, s2⟩ := q2
      rw [h2] at h
      rw [readStr_extend t h2]
      dsimp only at h ⊢
      cases h3 : readStr s2 with
      | error e =>
        rw [h3] at h
        exact Except.noConfusion h
      | ok q3 =>
        obtain ⟨description, s3⟩ := q3
        rw [h3] at h
        rw [readStr_extend t h3]
        dsimp only at h ⊢
        cases h4 : readStr s3 with
        | error e =>
          rw [h4] at h
          exact Except.noConfusion h
        | ok q4 =>
          obtain ⟨icon_image, s4⟩ := q4
          rw [h4] at h
          rw [readStr_extend t h4]
          dsimp only at h ⊢
          cases h5 : readOpt readStr s4 with
          | error e =>
            rw [h5] at h
            exact Except.noConfusion h
          | ok q5 =>
            obtain ⟨header_image, s5⟩ := q5
            rw [h5] at h
            rw [readOpt_extend (fun t' h' => readStr_extend t' h') t h5]
            dsimp only at h ⊢
            cases h6 : readOpt readStr s5 with
            | error e =>
              rw [h6] at h
              exact Except.noConfusion h
            | ok q6 =>
              obtain ⟨short_description, s6⟩ := q6
              rw [h6] at h
              rw [readOpt_extend (fun t' h' => readStr_extend t' h') t h6]
              dsimp only at h ⊢
              cases h7 : readOpt readStr s6 with
              | error e =>
                rw [h7] at h
                exact Except.noConfusion h
              | ok q7 =>
                obtain ⟨banner, s7⟩ := q7
                rw [h7] at h
                rw [readOpt_extend (fun t' h' => readStr_extend t' h') t h7]
                dsimp only at h ⊢
                cases h8 : readOpt (readVec readStr) s7 with
                | error e =>
                  rw [h8] at h
                  exact Except.noConfusion h
                | ok q8 =>
                  obtain ⟨tags, s8⟩ := q8
                  rw [h8] at h
                  rw [readOpt_extend
                    (fun t' h' => readVec_extend (fun t'' h'' => readStr_extend t'' h'') t' h')
                    t h8]
                  dsimp only at h ⊢
                  simp only [Except.ok.injEq, Prod.mk.injEq] at h
                  obtain ⟨rfl, rfl⟩ := h
                  rfl

theorem readInstr_extend {s : Bytes} {c : CollectionInstruction} {r : Bytes} (t : Bytes)
    (h : readInstr s = .ok (c, r)) : readInstr (s ++ t) = .ok (c, r ++ t) := by
  unfold readInstr at h ⊢
  cases hu : readU8 s with
  | error e =>
    rw [hu] at h
    exact Except.noConfusion h
  | ok q =>
    obtain ⟨tag, s1⟩ := q
    rw [hu] at h
    rw [readU8_extend t hu]
    dsimp only at h ⊢
    by_cases h0 : tag.val = 0
    · rw [if_pos h0] at h ⊢
      cases ha : readArgs s1 with
      | error e =>
        rw [ha] at h
        exact Except.noConfusion h
      | ok q2 =>
        obtain ⟨a, s2⟩ := q2
        rw [ha] at h
        rw [readArgs_extend t ha]
        dsimp only at h ⊢
        simp only [Except.ok.injEq, Prod.mk.injEq] at h
        obtain ⟨rfl, rfl⟩ := h
        rfl
    · rw [if_neg h0] at h ⊢
      by_cases h1 : tag.val = 1
      · rw [if_pos h1] at h ⊢
        simp only [Except.ok.injEq, Prod.mk.injEq] at h
        obtain ⟨rfl, rfl⟩ := h
        rfl
      · rw [if_neg h1] at h ⊢
        by_cases h2 : tag.val = 2
        · rw [if_pos h2] at h ⊢
          simp only [Except.ok.injEq, Prod.mk.injEq] at h
          obtain ⟨rfl, rfl⟩ := h
          rfl
        · rw [if_neg h2] at h ⊢
          by_cases h3 : tag.val = 3
          · rw [if_pos h3] at h ⊢
            simp only [Except.ok.injEq, Prod.mk.injEq] at h
            obtain ⟨rfl, rfl⟩ := h
            rfl
          · rw [if_neg h3] at h ⊢
            by_cases h4 : tag.val = 4
            · rw [if_pos h4] at h ⊢
              simp only [Except.ok.injEq, Prod.mk.injEq] at h
              obtain ⟨rfl, rfl⟩ := h
              rfl
            · rw [if_neg h4] at h ⊢
              by_cases h5 : tag.val = 5
              · rw [if_pos h5] at h ⊢
                cases hb : readAccountType s1 with
                | error e =>
                  rw [hb] at h
                  exact Except.noConfusion h
                | ok q2 =>
                  obtain ⟨ty, s2⟩ := q2
                  rw [hb] at h
                  rw [readAccountType_extend t hb]
                  dsimp only at h ⊢
                  simp only [Except.ok.injEq, Prod.mk.injEq] at h
                  obtain ⟨rfl, rfl⟩ := h
                  rfl
              · rw [if_neg h5] at h ⊢
                by_cases h6 : tag.val = 6
                · rw [if_pos h6] at h ⊢
                  simp only [Except.ok.injEq, Prod.mk.injEq] at h
                  obtain ⟨rfl, rfl⟩ := h
                  rfl
                · rw [if_neg h6] at h
                  exact Except.noConfusion h

theorem decode_trailing (c : CollectionInstruction) (h : wf c = true)
    (t : Bytes) (ht : t ≠ []) :
    decode (encode c ++ t) = .error .malformedInstruction := by
  unfold decode
  rw [readInstr_encode c h t]
  cases t with
  | nil => exact absurd rfl ht
  | cons b t' => rfl

theorem decode_take_err (c : CollectionInstruction) (h : wf c = true)
    (k : Nat) (hk : k < (encode c).length) :
    decode ((encode c).take k) = .error .malformedInstruction := by
  cases hd : readInstr ((encode c).take k) with
  | error e =>
    cases e
    unfold decode
    rw [hd]
  | ok q =>
    exfalso
    obtain ⟨c', rest⟩ := q
    have hx := readInstr_extend ((encode c).drop k) hd
    rw [List.take_append_drop] at hx
    have hy := readInstr_encode c h []
    rw [List.append_nil] at hy
    rw [hy] at hx
    simp only [Except.ok.injEq, Prod.mk.injEq] at hx
    have hnil : rest ++ (encode c).drop k = [] := hx.2.symm
    rw [List.append_eq_nil] at hnil
    have hlen := congrArg List.length hnil.2
    rw [List.length_drop] at hlen
    simp only [List.length_nil] at hlen
    omega

theorem decode_bad_tag (b : Byte) (hb : 7 ≤ b.val) (r : Bytes) :
    decode (b :: r) = .error .malformedInstruction := by
  have h1 : readU8 (b :: r) = .ok (b, r) := rfl
  unfold decode readInstr
  rw [h1]
  dsimp only
  rw [if_neg (by omega), if_neg (by omega), if_neg (by omega), if_neg (by omega),
      if_neg (by omega), if_neg (by omega), if_neg (by omega)]

theorem encode_hugeCmd : encode hugeCmd = List.replicate (2 ^ 32 + 21) zByte := by
  have hstr : encodeStr (List.replicate (2 ^ 32) zByte)
      = List.replicate (4 + 2 ^ 32) zByte := by
    unfold encodeStr
    rw [List.length_replicate, List.replicate_add]
    congr 1
  have h0 : encodeStr ([] : Bytes) = List.replicate 4 zByte := by decide
  have hop1 : encodeOpt encodeStr (none : Option Bytes) = List.replicate 1 zByte := rfl
  have hop2 : encodeOpt (encodeVec encodeStr) (none : Option (List Bytes))
      = List.replicate 1 zByte := rfl
  have hcons : encode hugeCmd = List.replicate 1 zByte ++ encodeArgs hugeArgs := rfl
  rw [hcons]
  unfold encodeArgs hugeArgs
  dsimp only
  rw [hstr]
  simp only [h0, hop1, hop2]
  simp only [← List.replicate_add]
  congr 1

theorem readChunk_zero (s : Bytes) : readChunk 0 s = .ok ([], s) := by
  unfold readChunk
  rw [if_pos (Nat.zero_le _)]
  rfl

theorem readStr_zeros (m : Nat) :
    readStr (List.replicate (4 + m) zByte) = .ok ([], List.replicate m zByte) := by
  rw [List.replicate_add]
  have h4 : List.replicate 4 zByte = u32le 0 := by decide
  rw [h4]
  unfold readStr
  rw [readU32_u32le]
  dsimp only
  rw [Nat.zero_mod, readChunk_zero]

theorem readOpt_zero (p : Rd α) (m : Nat) :
    readOpt p (List.replicate (1 + m) zByte) = .ok (none, List.replicate m zByte) := by
  rw [List.replicate_add]
  rfl

theorem readArgs_zeros (m : Nat) :
    readArgs (List.replicate (20 + m) zByte) = .ok (emptyArgs, List.replicate m zByte) := by
  unfold readArgs
  rw [show (20 : Nat) + m = 4 + (16 + m) by omega, readStr_zeros]
  dsimp only
  rw [show (16 : Nat) + m = 4 + (12 + m) by omega, readStr_zeros]
  dsimp only
  rw [show (12 : Nat) + m = 4 + (8 + m) by omega, readStr_zeros]
  dsimp only
  rw [show (8 : Nat) + m = 4 + (4 + m) by omega, readStr_zeros]
  dsimp only
  rw [show (4 : Nat) + m = 1 + (3 + m) by omega, readOpt_zero]
  dsimp only
  rw [show (3 : Nat) + m = 1 + (2 + m) by omega, readOpt_zero]
  dsimp only
  rw [show (2 : Nat) + m = 1 + (1 + m) by omega, readOpt_zero]
  dsimp only
  rw [readOpt_zero]
  rfl

theorem decode_of_trailing_readInstr (s : Bytes) (c : CollectionInstruction) (b : Byte)
    (t : Bytes) (h : readInstr s = .ok (c, b :: t)) :
    decode s = .error .malformedInstruction := by
  unfold decode
  rw [h]

theorem readInstr_zero_tag (s1 : Bytes) (a : CreateCollectionAccountArgs) (r : Bytes)
    (h : readArgs s1 = .ok (a, r)) :
    readInstr (zByte :: s1) = .ok (.CreateCollectionAccount a, r) := by
  have h8 : readU8 (zByte :: s1) = .ok (zByte, s1) := rfl
  unfold readInstr
  rw [h8]
  dsimp only
  rw [if_pos (by decide), h]

theorem readInstr_hugeCmd :
    readInstr (List.replicate (2 ^ 32 + 21) zByte)
      = .ok (.CreateCollectionAccount emptyArgs, List.replicate (2 ^ 32) zByte) := by
  rw [show (2 : Nat) ^ 32 + 21 = (20 + 2 ^ 32) + 1 by norm_num, List.replicate_succ]
  exact readInstr_zero_tag _ _ _ (readArgs_zeros (2 ^ 32))

theorem decode_hugeCmd_err : decode (encode hugeCmd) = .error .malformedInstruction := by
  rw [encode_hugeCmd]
  have h := readInstr_hugeCmd
  rw [show (2 : Nat) ^ 32 = (2 ^ 32 - 1) + 1 by norm_num, List.replicate_succ] at h
  exact decode_of_trailing_readInstr _ _ _ _ h

theorem check_tags_iff (a : CreateCollectionAccountArgs) :
    a.check_tags = true ↔
      ∀ ts, a.tags = some ts → ts.length ≤ 6 ∧ ∀ tg ∈ ts, tg.length < 20 := by
  unfold CreateCollectionAccountArgs.check_tags
    CreateCollectionAccountArgs.MAX_TAGS_ARRAY_LENGTH
    CreateCollectionAccountArgs.MAX_TAG_LENGTH
  cases ht : a.tags with
  | none => simp
  | some v =>
    dsimp only
    by_cases hlen : v.length > 6
    · rw [if_pos hlen]
      constructor
      · intro hfalse
        exact absurd hfalse (by simp)
      · intro hr
        exact absurd (hr v rfl).1 (by omega)
    · rw [if_neg hlen]
      simp only [List.all_eq_true, Bool.not_eq_true', decide_eq_false_iff_not, not_le,
        Option.some.injEq]
      constructor
      · intro hall ts hts
        subst hts
        exact ⟨by omega, fun tg htg => hall tg htg⟩
      · intro hr tg htg
        exact (hr v rfl).2 tg htg

theorem is_valid_iff (a : CreateCollectionAccountArgs) :
    a.is_valid = true ↔
      (a.title.length ≤ 32 ∧ a.symbol.length ≤ 10 ∧ a.description.length ≤ 800 ∧
       a.icon_image.length ≤ 200 ∧
       (∀ s, a.header_image = some s → s.length ≤ 200) ∧
       (∀ s, a.short_description = some s → s.length ≤ 800) ∧
       (∀ s, a.banner = some s → s.length ≤ 200) ∧
       (∀ ts, a.tags = some ts → ts.length ≤ 6 ∧ ∀ tg ∈ ts, tg.length < 20)) := by
  unfold CreateCollectionAccountArgs.is_valid
  simp only [Bool.and_eq_true, decide_eq_true_eq]
  rw [check_tags_iff a]
  unfold CreateCollectionAccountArgs.MAX_TITLE_LENGTH
    CreateCollectionAccountArgs.MAX_SYMBOL_LENGTH
    CreateCollectionAccountArgs.MAX_URI_LENGTH
    CreateCollectionAccountArgs.MAX_DESCRIPTION_LENGTH
    CreateCollectionAccountArgs.MAX_SHORT_DESCRIPTION_LENGTH
  cases hh : a.header_image <;> cases hs : a.short_description <;> cases hb : a.banner <;>
    simp <;> tauto

/-- C1 (amended): the `create_collection_account` builder never fails and
never consults `is_valid`: for every payload, valid or not, it returns the
Request with references [collection: W+S], [funder: S], [rent: read-only],
[system: read-only] and body `encode(CreateCollectionAccount(args))`, whose
byte list is never empty. -/
theorem create_collection_account_total
    (program_id collection_account from_account : Pubkey)
    (args : CreateCollectionAccountArgs) :
    create_collection_account program_id collection_account from_account args =
      { program_id := program_id
        accounts := [
          AccountMeta.new collection_account true,
          AccountMeta.new_readonly from_account true,
          AccountMeta.new_readonly rentSysvarId false,
          AccountMeta.new_readonly systemProgramId false]
        data := encode (.CreateCollectionAccount args) } ∧
    (create_collection_account program_id collection_account from_account args).data ≠ [] :=
  ⟨rfl, by simp [create_collection_account, encode]⟩

/-- C1 counterexample: a payload with a title of length 40 fails `is_valid`,
yet the builder succeeds and produces encoded bytes — it does not fail with
`InvalidArgs`, contradicting the claim as stated. -/
theorem create_collection_account_invalid_args_cex :
    CreateCollectionAccountArgs.is_valid invalidTitleArgs = false ∧
    create_collection_account ⟨1⟩ ⟨2⟩ ⟨3⟩ invalidTitleArgs =
      { program_id := ⟨1⟩
        accounts := [
          AccountMeta.new ⟨2⟩ true,
          AccountMeta.new_readonly ⟨3⟩ true,
          AccountMeta.new_readonly rentSysvarId false,
          AccountMeta.new_readonly systemProgramId false]
        data := encode (.CreateCollectionAccount invalidTitleArgs) } ∧
    (create_collection_account ⟨1⟩ ⟨2⟩ ⟨3⟩ invalidTitleArgs).data ≠ [] :=
  ⟨by decide, rfl, by simp [create_collection_account, encode]⟩

/-- C2: evaluation of `include_token` at concrete inputs. The builder marks
the mint (position 1) and the payer (position 2) writable via
`AccountMeta::new`, so the reference list is
[collection: W+S], [mint: W], [payer: W+S], [index: W], [rent: read-only],
[system: read-only] — diverging from the claim (and from the `IncludeToken`
variant's doc comment), which has the mint read-only and the payer a
non-writable signer. -/
theorem include_token_eval :
    (include_token ⟨10⟩ ⟨11⟩ ⟨12⟩ ⟨13⟩ ⟨14⟩).accounts.map accessFlags =
      [(true, true), (true, false), (true, true), (true, false),
       (false, false), (false, false)] ∧
    (include_token ⟨10⟩ ⟨11⟩ ⟨12⟩ ⟨13⟩ ⟨14⟩).accounts.map AccountMeta.pubkey =
      [⟨11⟩, ⟨12⟩, ⟨13⟩, ⟨14⟩, rentSysvarId, systemProgramId] ∧
    (include_token ⟨10⟩ ⟨11⟩ ⟨12⟩ ⟨13⟩ ⟨14⟩).data = encode .IncludeToken :=
  ⟨rfl, rfl, rfl⟩

/-- C3 (amended): `light_up_stars_hundred` returns the reference list
[collection: W], [source: W+S], [destination: W], [system: read-only] with
body `encode(LightUpStarsHundred)`: the source is writable as well as a
signer (`AccountMeta::new(source_account, true)`). -/
theorem light_up_stars_hundred_spec
    (program_id collection_account source_account destination_account : Pubkey) :
    light_up_stars_hundred program_id collection_account source_account
        destination_account =
      { program_id := program_id
        accounts := [
          AccountMeta.new collection_account false,
          AccountMeta.new source_account true,
          AccountMeta.new destination_account false,
          AccountMeta.new_readonly systemProgramId false]
        data := encode .LightUpStarsHundred } ∧
    (light_up_stars_hundred program_id collection_account source_account
        destination_account).accounts.map accessFlags =
      [(true, false), (true, true), (true, false), (false, false)] :=
  ⟨rfl, rfl⟩

/-- C3 counterexample: at concrete inputs the access flags are not the
claimed [collection: W], [source: S only], [destination: W],
[system: read-only] — the source reference is writable. -/
theorem light_up_stars_hundred_cex :
    (light_up_stars_hundred ⟨20⟩ ⟨21⟩ ⟨22⟩ ⟨23⟩).accounts.map accessFlags ≠
      [(true, false), (false, true), (true, false), (false, false)] := by
  decide

/-- C4 (amended): `close_account` returns the reference list
[record: W], [recipient: W], [authority: W+S] with body
`encode(CloseAccount(account_type))`: the authority is writable as well as
a signer (`AccountMeta::new(authority_account, true)`). -/
theorem close_account_spec
    (program_id state_account recipient_account authority_account : Pubkey)
    (account_type : AccountType) :
    close_account program_id state_account recipient_account authority_account
        account_type =
      { program_id := program_id
        accounts := [
          AccountMeta.new state_account false,
          AccountMeta.new recipient_account false,
          AccountMeta.new authority_account true]
        data := encode (.CloseAccount account_type) } ∧
    (close_account program_id state_account recipient_account authority_account
        account_type).accounts.map accessFlags =
      [(true, false), (true, false), (true, true)] :=
  ⟨rfl, rfl⟩

/-- C4 counterexample: at concrete inputs the access flags are not the
claimed [record: W], [recipient: W], [authority: S only] — the authority
reference is writable. -/
theorem close_account_cex :
    (close_account ⟨30⟩ ⟨31⟩ ⟨32⟩ ⟨33⟩ ⟨Byte.ofNat 1⟩).accounts.map accessFlags ≠
      [(true, false), (true, false), (false, true)] := by
  decide

/-- C5: `is_valid` holds exactly when title ≤ 32, symbol ≤ 10,
description ≤ 800, icon ≤ 200, each present optional field within its bound
(header ≤ 200, short description ≤ 800, banner ≤ 200), and, when tags are
present, at most 6 of them, each strictly shorter than 20; in particular a
title of length 32 is valid and 33 invalid, 6 tags of length 19 are valid,
and a tag of length 20 or a 7th tag is invalid. -/
theorem is_valid_characterization :
    (∀ a : CreateCollectionAccountArgs, a.is_valid = true ↔
      (a.title.length ≤ 32 ∧ a.symbol.length ≤ 10 ∧ a.description.length ≤ 800 ∧
       a.icon_image.length ≤ 200 ∧
       (∀ s, a.header_image = some s → s.length ≤ 200) ∧
       (∀ s, a.short_description = some s → s.length ≤ 800) ∧
       (∀ s, a.banner = some s → s.length ≤ 200) ∧
       (∀ ts, a.tags = some ts → ts.length ≤ 6 ∧ ∀ tg ∈ ts, tg.length < 20))) ∧
    CreateCollectionAccountArgs.is_valid { emptyArgs with title := strN 32 } = true ∧
    CreateCollectionAccountArgs.is_valid { emptyArgs with title := strN 33 } = false ∧
    CreateCollectionAccountArgs.is_valid
      { emptyArgs with tags := some (List.replicate 6 (strN 19)) } = true ∧
    CreateCollectionAccountArgs.is_valid
      { emptyArgs with tags := some [strN 20] } = false ∧
    CreateCollectionAccountArgs.is_valid
      { emptyArgs with tags := some (List.replicate 7 (strN 19)) } = false :=
  ⟨is_valid_iff, by decide, by decide, by decide, by decide, by decide⟩

/-- C6 (amended): for every command whose string fields, tag list and tags
are shorter than `2 ^ 32` bytes/entries — so that borsh's `len as u32`
length prefix is lossless — decoding the encoding yields the command back. -/
theorem decode_encode_roundtrip (c : CollectionInstruction) (h : wf c = true) :
    decode (encode c) = .ok c := by
  unfold decode
  have h2 := readInstr_encode c h []
  rw [List.append_nil] at h2
  rw [h2]

/-- C6 witness: the round trip at a concrete command (title "Cats",
symbol "CAT", one tag). -/
theorem decode_encode_roundtrip_witness :
    wf sampleCmd = true ∧ decode (encode sampleCmd) = .ok sampleCmd :=
  ⟨by decide, decode_encode_roundtrip sampleCmd (by decide)⟩

/-- C6 counterexample: a command whose title is `2 ^ 32` bytes long does not
round-trip — its `u32` length prefix wraps to `0`, the decoder misparses the
all-zero buffer and rejects it for trailing bytes — so
`decode (encode c) = c` does not hold for every command value. -/
theorem decode_encode_overflow_cex :
    decode (encode hugeCmd) = .error .malformedInstruction ∧
    decode (encode hugeCmd) ≠ .ok hugeCmd := by
  refine ⟨decode_hugeCmd_err, ?_⟩
  rw [decode_hugeCmd_err]
  intro hcontra
  exact Except.noConfusion hcontra

/-- C7: decode fails with `MalformedInstruction`, returning no command, on
every buffer with tag byte ≥ 7, on every strict prefix of a (losslessly
encodable) command's encoding, and on every such encoding followed by
trailing bytes; in particular on the buffer [CloseAccount tag, a valid
AccountType ordinal, one trailing byte]. -/
theorem decode_rejects_malformed :
    (∀ (b : Byte) (r : Bytes), 7 ≤ b.val →
      decode (b :: r) = .error .malformedInstruction) ∧
    (∀ c : CollectionInstruction, wf c = true → ∀ k : Nat, k < (encode c).length →
      decode ((encode c).take k) = .error .malformedInstruction) ∧
    (∀ c : CollectionInstruction, wf c = true → ∀ t : Bytes, t ≠ [] →
      decode (encode c ++ t) = .error .malformedInstruction) ∧
    (∀ (s : Bytes) (c : CollectionInstruction) (b : Byte) (t : Bytes),
      readInstr s = .ok (c, b :: t) → decode s = .error .malformedInstruction) ∧
    decode [Byte.ofNat 5, Byte.ofNat 1, Byte.ofNat 0] = .error .malformedInstruction :=
  ⟨fun b r hb => decode_bad_tag b hb r,
   fun c h k hk => decode_take_err c h k hk,
   fun c h t ht => decode_trailing c h t ht,
   fun s c b t h => decode_of_trailing_readInstr s c b t h,
   by decide⟩

/-- C8: `withdraw` returns the reference list [treasury: W], [recipient: W]
and its body is the single `Withdraw` tag byte, ordinal 6, with no payload
bytes. -/
theorem withdraw_spec (program_id treasury_account recipient_account : Pubkey) :
    withdraw program_id treasury_account recipient_account =
      { program_id := program_id
        accounts := [
          AccountMeta.new treasury_account false,
          AccountMeta.new recipient_account false]
        data := [Byte.ofNat 6] } ∧
    (withdraw program_id treasury_account recipient_account).accounts.map accessFlags =
      [(true, false), (true, false)] ∧
    encode .Withdraw = [Byte.ofNat 6] :=
  ⟨rfl, rfl, rfl⟩

/-- C9: no builder panics: `encode` (borsh serialization into a byte
vector, which cannot fail) is total, every builder's body is exactly the
encoding of its command for every input — including payloads failing
`is_valid` — and an encoding is never empty. -/
theorem builders_total :
    (∀ (p c f : Pubkey) (args : CreateCollectionAccountArgs),
      (create_collection_account p c f args).data = encode (.CreateCollectionAccount args)) ∧
    (∀ p c m payer idx : Pubkey,
      (include_token p c m payer idx).data = encode .IncludeToken) ∧
    (∀ p c : Pubkey, (light_up_stars_once p c).data = encode .LightUpStarsOnce) ∧
    (∀ p c s d : Pubkey,
      (light_up_stars_hundred p c s d).data = encode .LightUpStarsHundred) ∧
    (∀ (p s r a : Pubkey) (t : AccountType),
      (close_account p s r a t).data = encode (.CloseAccount t)) ∧
    (∀ p t r : Pubkey, (withdraw p t r).data = encode .Withdraw) ∧
    (∀ cmd : CollectionInstruction, encode cmd ≠ []) := by
  refine ⟨fun _ _ _ _ => rfl, fun _ _ _ _ _ => rfl, fun _ _ => rfl, fun _ _ _ _ => rfl,
    fun _ _ _ _ _ => rfl, fun _ _ _ => rfl, ?_⟩
  intro cmd
  cases cmd <;> simp [encode]

/-- C10: `is_valid` imposes no lower bounds: the all-empty payload is valid,
and `check_tags` accepts a present-but-empty tags list as well as tags that
are empty strings. -/
theorem is_valid_no_lower_bounds :
    CreateCollectionAccountArgs.is_valid emptyArgs = true ∧
    CreateCollectionAccountArgs.check_tags { emptyArgs with tags := some [] } = true ∧
    CreateCollectionAccountArgs.check_tags { emptyArgs with tags := some [[], []] } = true ∧
    CreateCollectionAccountArgs.is_valid { emptyArgs with tags := some [[], []] } = true := by
  decide

end Collection
